import Mathlib

/-!
Verification of the pagoda skeleton module (pagoda/skeleton.py).

The Python source is embedded shallowly: floats become rationals, the
mutable closure state of a PID controller becomes explicit state passing,
and operations that can raise a Python exception return an Except value.
Bodies and joints live in the external physics world; the attributes the
skeleton reads from and writes to them are modelled as record fields, and
the world's name-based body lookup as a partial map from names to body
states.
-/

namespace Pagoda

/-- Python runtime errors that the skeleton code can raise. -/
inductive PyErr : Type
  | zeroDivision
  | nameError
  | keyError
deriving DecidableEq, Repr

/-- The fixed gains of one PID controller: the arguments of pid(kp, ki, kd,
smooth) in the source. -/
structure PidParams where
  kp : ℚ
  ki : ℚ
  kd : ℚ
  smooth : ℚ
deriving DecidableEq, Repr

/-- The mutable closure state of one PID controller: the dict
state = dict(p=0, i=0, d=0) captured by control in the source. -/
structure PidState where
  p : ℚ
  i : ℚ
  d : ℚ
deriving DecidableEq, Repr

instance : Inhabited PidState := ⟨⟨0, 0, 0⟩⟩

instance : Inhabited PidParams := ⟨⟨0, 0, 0, 0⟩⟩

/-- The fresh state a newly created controller starts from. -/
def pidInit : PidState := ⟨0, 0, 0⟩

/-- Default parameters of pid(): kp=0, ki=0, kd=0, smooth=0.1. -/
def pidDefaults : PidParams := ⟨0, 0, 0, 1/10⟩

/-- The inner function control(error, dt) of pid in the source:

  state[d] = smooth * state[d] + (1 - smooth) * (error - state[p]) / dt
  state[i] += error * dt
  state[p] = error
  return kp * state[p] + ki * state[i] + kd * state[d]

Python raises ZeroDivisionError on the first line whenever dt == 0 (also
for a zero numerator), before any of the state is mutated. -/
def control (c : PidParams) (st : PidState) (error dt : ℚ) :
    Except PyErr (ℚ × PidState) :=
  if dt = 0 then .error .zeroDivision
  else
    let d := c.smooth * st.d + (1 - c.smooth) * (error - st.p) / dt
    let i := st.i + error * dt
    let p := error
    .ok (c.kp * p + c.ki * i + c.kd * d, ⟨p, i, d⟩)

/-- The state control leaves behind on a successful call. -/
def pidNext (c : PidParams) (st : PidState) (error dt : ℚ) : PidState :=
  ⟨error, st.i + error * dt,
   c.smooth * st.d + (1 - c.smooth) * (error - st.p) / dt⟩

/-- The value control returns on a successful call. -/
def pidValue (c : PidParams) (st : PidState) (error dt : ℚ) : ℚ :=
  c.kp * error + c.ki * (st.i + error * dt) +
    c.kd * (c.smooth * st.d + (1 - c.smooth) * (error - st.p) / dt)

theorem control_ok (c : PidParams) (st : PidState) (error dt : ℚ)
    (h : dt ≠ 0) :
    control c st error dt = .ok (pidValue c st error dt, pidNext c st error dt) := by
  simp [control, h, pidValue, pidNext]

theorem control_zero_dt (c : PidParams) (st : PidState) (error : ℚ) :
    control c st error 0 = .error .zeroDivision := by
  simp [control]

/-- A 3-vector of coordinates (positions, velocities, anchors). -/
structure Vec3 where
  x : ℚ
  y : ℚ
  z : ℚ
deriving DecidableEq, Repr

instance : Inhabited Vec3 := ⟨⟨0, 0, 0⟩⟩

/-- A 4-component quaternion (body rotation). -/
structure Vec4 where
  a : ℚ
  b : ℚ
  c : ℚ
  d : ℚ
deriving DecidableEq, Repr

instance : Inhabited Vec4 := ⟨⟨0, 0, 0, 0⟩⟩

def Vec3.toList (v : Vec3) : List ℚ := [v.x, v.y, v.z]

def Vec4.toList (v : Vec4) : List ℚ := [v.a, v.b, v.c, v.d]

/-- Componentwise difference, as in np.array(joint.anchor) - joint.anchor2. -/
def Vec3.sub (v w : Vec3) : Vec3 := ⟨v.x - w.x, v.y - w.y, v.z - w.z⟩

/-- (delta * delta).sum in the source: the squared Euclidean norm. -/
def Vec3.sqnorm (v : Vec3) : ℚ := v.x * v.x + v.y * v.y + v.z * v.z

/-- A physics joint as the skeleton sees it.  The joint object is owned by
the external physics world; the attributes the skeleton reads and writes
(ADOF, angles, velocities, the per-DOF controllers and targets it stores on
the joint, the two constraint anchors, and the last motor feedback row) are
modelled as fields.  Modelled from the spec: reading velocities returns the
vector last written, and amotor.feedback[-1] is the feedback field. -/
structure Joint where
  name : String
  adof : ℕ
  angles : List ℚ
  velocities : List ℚ
  controllers : List (PidParams × PidState)
  target_angles : List (Option ℚ)
  anchor : Vec3
  anchor2 : Vec3
  feedback : List ℚ
deriving DecidableEq, Repr

instance : Inhabited Joint :=
  ⟨{ name := "", adof := 0, angles := [], velocities := [], controllers := [],
     target_angles := [], anchor := default, anchor2 := default, feedback := [] }⟩

/-- The state of one physics body: position, quaternion, linear and angular
velocity, each independently readable and writable per the spec. -/
structure BodyState where
  position : Vec3
  quaternion : Vec4
  linear_velocity : Vec3
  angular_velocity : Vec3
deriving DecidableEq, Repr

instance : Inhabited BodyState := ⟨⟨default, default, default, default⟩⟩

/-- The physics world as the skeleton uses it: the fixed timestep dt and the
name-based body lookup get_body.  Modelled from the spec: body lookup by
name, with body state readable and writable through the returned body. -/
structure World where
  dt : ℚ
  get_body : String → Option BodyState

/-- Writing the state of the body named n (the body must exist; the callers
below look it up first, mirroring body = self.world.get_body(name)). -/
def World.set_body (w : World) (n : String) (st : BodyState) : World :=
  ⟨w.dt, fun m => if m = n then some st else w.get_body m⟩

/-- A skeleton: ordered roots, bodies and joints.  Bodies are references
into the physics world, modelled by their (unique) names; reading a body
attribute goes through the world's lookup. -/
structure Skeleton where
  roots : List String
  bodies : List String
  joints : List Joint
deriving DecidableEq, Repr

instance : Inhabited Skeleton := ⟨⟨[], [], []⟩⟩

/-- Skeleton.__init__: no roots, no bodies, no joints (the unloaded state). -/
def Skeleton.init : Skeleton := ⟨[], [], []⟩

/-- flat_array in the source: arr = []; for x in iterables: arr.extend(x). -/
def flat_array (iterables : List (List ℚ)) : List ℚ := iterables.flatten

/-- Skeleton.num_dofs: sum(j.ADOF for j in self.joints). -/
def Skeleton.num_dofs (s : Skeleton) : ℕ := (s.joints.map (fun j => j.adof)).sum

/-- Skeleton.joint_angles. -/
def Skeleton.joint_angles (s : Skeleton) : List ℚ :=
  flat_array (s.joints.map (fun j => j.angles))

/-- Skeleton.joint_velocities. -/
def Skeleton.joint_velocities (s : Skeleton) : List ℚ :=
  flat_array (s.joints.map (fun j => j.velocities))

/-- Skeleton.joint_torques: j.amotor.feedback[-1][:j.ADOF] per joint. -/
def Skeleton.joint_torques (s : Skeleton) : List ℚ :=
  flat_array (s.joints.map (fun j => j.feedback.take j.adof))

/-- The state of a referenced body: the skeleton holds the reference, so the
lookup always succeeds on a loaded skeleton; getD only supplies a formal
default for names outside the world. -/
def World.body_state (w : World) (n : String) : BodyState :=
  (w.get_body n).getD default

/-- Skeleton.body_positions. -/
def Skeleton.body_positions (s : Skeleton) (w : World) : List ℚ :=
  flat_array (s.bodies.map (fun n => (w.body_state n).position.toList))

/-- Skeleton.body_rotations (4 components per body). -/
def Skeleton.body_rotations (s : Skeleton) (w : World) : List ℚ :=
  flat_array (s.bodies.map (fun n => (w.body_state n).quaternion.toList))

/-- Skeleton.body_linear_velocities. -/
def Skeleton.body_linear_velocities (s : Skeleton) (w : World) : List ℚ :=
  flat_array (s.bodies.map (fun n => (w.body_state n).linear_velocity.toList))

/-- Skeleton.body_angular_velocities. -/
def Skeleton.body_angular_velocities (s : Skeleton) (w : World) : List ℚ :=
  flat_array (s.bodies.map (fun n => (w.body_state n).angular_velocity.toList))

/-- The loop of Skeleton.indices_for_joint: j starts at 0 and accumulates
ADOF; the first joint whose name matches yields list(range(j, j + ADOF)). -/
def indices_for_joint_go (name : String) : ℕ → List Joint → List ℕ
  | _, [] => []
  | j, joint :: rest =>
      if joint.name = name then List.range' j joint.adof
      else indices_for_joint_go name (j + joint.adof) rest

/-- Skeleton.indices_for_joint. -/
def Skeleton.indices_for_joint (s : Skeleton) (name : String) : List ℕ :=
  indices_for_joint_go name 0 s.joints

/-- The loop of Skeleton.indices_for_body: enumerate(self.bodies), the first
body whose name matches yields list(range(j * step, (j + 1) * step)). -/
def indices_for_body_go (name : String) (step : ℕ) : ℕ → List String → List ℕ
  | _, [] => []
  | j, b :: rest =>
      if b = name then List.range' (j * step) step
      else indices_for_body_go name step (j + 1) rest

/-- Skeleton.indices_for_body (step defaults to 3 in the source). -/
def Skeleton.indices_for_body (s : Skeleton) (name : String) (step : ℕ) : List ℕ :=
  indices_for_body_go name step 0 s.bodies

/-- Skeleton.joint_rms up to the final square root: the source collects the
squared anchor separations and returns np.sqrt(np.mean(deltas)).  np.mean of
the empty list is NaN (modelled as none); the final np.sqrt, irrational in
general, is applied in the theorems as Real.sqrt. -/
def Skeleton.joint_rms_sq (s : Skeleton) : Option ℚ :=
  match s.joints with
  | [] => none
  | js => some (((js.map (fun j => (Vec3.sub j.anchor j.anchor2).sqnorm)).sum) /
      (js.length : ℚ))

/-- Skeleton.get_body_states: the list of (name, position, quaternion,
linear velocity, angular velocity) per body, read through the reference. -/
def Skeleton.get_body_states (s : Skeleton) (w : World) : List (String × BodyState) :=
  s.bodies.map (fun n => (n, w.body_state n))

/-- Skeleton.set_body_states: for each tuple, look the body up by name via
the world, then write its four state attributes.  Modelled from the spec:
an unresolved body name is fatal and surfaces (the world lookup misses). -/
def set_body_states (w : World) : List (String × BodyState) → Except PyErr World
  | [] => .ok w
  | (n, st) :: rest =>
      match w.get_body n with
      | none => .error .keyError
      | some _ => set_body_states (w.set_body n st) rest

/-- Skeleton.set_pid_params: for each joint, reset target_angles to
[None] * ADOF and create one fresh pid controller per DOF. -/
def Skeleton.set_pid_params (s : Skeleton) (c : PidParams) : Skeleton :=
  { s with joints := s.joints.map (fun j =>
      { j with target_angles := List.replicate j.adof none,
               controllers := List.replicate j.adof (c, pidInit) }) }

/-- The line self.roots = [world.get_body(r) for r in p.roots] of
Skeleton.load_skel: the name world is unbound at module scope (the method
only binds self and source), so iterating a nonempty p.roots raises
NameError; a comprehension over an empty list never evaluates its body. -/
def resolve_roots_via_global_world : List String → Except PyErr (List String)
  | [] => .ok []
  | _ :: _ => .error .nameError

/-- What the parser collaborator produces: root identifiers, bodies and
joints (p.roots, p.bodies, p.joints in the source). -/
structure ParserOutput where
  roots : List String
  bodies : List String
  joints : List Joint
deriving Repr

/-- Skeleton.load_skel after parsing: resolve roots, take over the parser's
bodies and joints, then set_pid_params(kp=(1 - 1e4) / self.world.dt)
(ki, kd and smooth keep pid's defaults 0, 0 and 0.1). -/
def load_skel (w : World) (p : ParserOutput) : Except PyErr Skeleton := do
  let roots ← resolve_roots_via_global_world p.roots
  .ok (Skeleton.set_pid_params ⟨roots, p.bodies, p.joints⟩
        ⟨(1 - 10000) / w.dt, 0, 0, 1/10⟩)

/-- One list-comprehension step of Skeleton.set_target_angles: each zipped
(cur, tgt, ctrl) triple calls ctrl(tgt - cur, self.world.dt), mutating that
controller's state and producing one velocity. -/
def run_ctrls (dt : ℚ) :
    List (ℚ × ℚ × PidParams × PidState) →
      Except PyErr (List ℚ × List (PidParams × PidState))
  | [] => .ok ([], [])
  | (cur, tgt, c, st) :: rest => do
      let r ← control c st (tgt - cur) dt
      let rs ← run_ctrls dt rest
      .ok (r.1 :: rs.1, (c, r.2) :: rs.2)

/-- The zip of Skeleton.set_target_angles:
zip(joint.angles, angles[j:j+ADOF], joint.controllers). -/
def joint_triples (j : Joint) (slice : List ℚ) :
    List (ℚ × ℚ × PidParams × PidState) :=
  j.angles.zip (slice.zip j.controllers)

/-- One joint's update in Skeleton.set_target_angles: run the controllers
over the zipped triples, assign the resulting velocity vector, and keep the
controllers that zip truncation left uncalled with their old state. -/
def joint_step (dt : ℚ) (j : Joint) (slice : List ℚ) : Except PyErr Joint := do
  let r ← run_ctrls dt (joint_triples j slice)
  .ok { j with velocities := r.1,
               controllers := r.2 ++ j.controllers.drop (joint_triples j slice).length }

/-- The loop of Skeleton.set_target_angles: j starts at 0, each joint takes
the slice angles[j:j+ADOF] and j advances by ADOF. -/
def set_target_angles_go (dt : ℚ) (angles : List ℚ) :
    ℕ → List Joint → Except PyErr (List Joint)
  | _, [] => .ok []
  | off, j :: js => do
      let j' ← joint_step dt j ((angles.drop off).take j.adof)
      let js' ← set_target_angles_go dt angles (off + j.adof) js
      .ok (j' :: js')

/-- Skeleton.set_target_angles (dt is self.world.dt). -/
def Skeleton.set_target_angles (s : Skeleton) (dt : ℚ) (angles : List ℚ) :
    Except PyErr Skeleton := do
  let js ← set_target_angles_go dt angles 0 s.joints
  .ok { s with joints := js }

/-- The loop of Skeleton.add_torques: each joint is passed
list(torques[j:j+ADOF]) + [0] * (3 - ADOF); the result lists, in joint
order, the vector handed to each joint.add_torques (the applied-torque
accumulator itself lives in the external physics joint). -/
def add_torques_go (torques : List ℚ) : ℕ → List Joint → List (List ℚ)
  | _, [] => []
  | off, j :: js =>
      ((torques.drop off).take j.adof ++ List.replicate (3 - j.adof) 0)
        :: add_torques_go torques (off + j.adof) js

/-- Skeleton.add_torques. -/
def Skeleton.add_torques (s : Skeleton) (torques : List ℚ) : List (List ℚ) :=
  add_torques_go torques 0 s.joints

/-- The flat-vector offset of the k-th joint: the sum of the ADOFs of the
joints before it in load order. -/
def dof_offset (joints : List Joint) (k : ℕ) : ℕ :=
  ((joints.take k).map (fun j => j.adof)).sum

/-! ## Claim C1: the PID step -/

/-- C1: a PID step with dt ≠ 0 updates derivative, integral and
proportional exactly as specified (from the zero initial state) and returns
kp*proportional + ki*integral + kd*derivative; concretely, with ki = 1 and
kp = kd = 0 the calls step(2,1) then step(3,1) return 2 then 5, and with
kp = 2, ki = kd = 0, step(3,1) returns 6. -/
theorem claim1_pid_step :
    (∀ (c : PidParams) (st : PidState) (error dt : ℚ), dt ≠ 0 →
      control c st error dt =
        .ok (c.kp * error + c.ki * (st.i + error * dt) +
               c.kd * (c.smooth * st.d + (1 - c.smooth) * (error - st.p) / dt),
             ⟨error, st.i + error * dt,
              c.smooth * st.d + (1 - c.smooth) * (error - st.p) / dt⟩)) ∧
    control ⟨0, 1, 0, 1/10⟩ pidInit 2 1 = .ok (2, ⟨2, 2, 9/5⟩) ∧
    control ⟨0, 1, 0, 1/10⟩ ⟨2, 2, 9/5⟩ 3 1 = .ok (5, ⟨3, 5, 27/25⟩) ∧
    control ⟨2, 0, 0, 1/10⟩ pidInit 3 1 = .ok (6, ⟨3, 3, 27/10⟩) := by
  refine ⟨fun c st error dt h => control_ok c st error dt h, ?_, ?_, ?_⟩ <;>
    · rw [control_ok _ _ _ _ (by norm_num)]
      simp [pidValue, pidNext, pidInit]
      norm_num

/-! ## Claim C8: zero timestep -/

/-- C8: step(error, 0) raises ZeroDivisionError for every controller and
every state, and the error is not caught in the controller or the skeleton:
set_target_angles with world.dt = 0 propagates it whenever any control call
happens at all (a nonempty skeleton with at least one DOF and a nonempty
angle input). -/
theorem claim8_zero_dt :
    (∀ (c : PidParams) (st : PidState) (error : ℚ),
        control c st error 0 = .error .zeroDivision) ∧
    (∀ (s : Skeleton) (angles : List ℚ),
        s.joints ≠ [] → angles ≠ [] →
        (∀ j ∈ s.joints, 1 ≤ j.adof ∧ j.angles ≠ [] ∧ j.controllers ≠ []) →
        s.set_target_angles 0 angles = .error .zeroDivision) := by
  constructor
  · exact fun c st error => control_zero_dt c st error
  · intro s angles hj ha hv
    obtain ⟨j, js, hjs⟩ := List.exists_cons_of_ne_nil hj
    obtain ⟨a, as, has⟩ := List.exists_cons_of_ne_nil ha
    obtain ⟨h1, h2, h3⟩ := hv j (by rw [hjs]; exact List.mem_cons_self j js)
    obtain ⟨cur, curs, hcur⟩ := List.exists_cons_of_ne_nil h2
    obtain ⟨ctl, ctls, hctl⟩ := List.exists_cons_of_ne_nil h3
    obtain ⟨cp, cs⟩ := ctl
    obtain ⟨m, hm⟩ := Nat.exists_eq_succ_of_ne_zero (Nat.pos_iff_ne_zero.mp h1)
    unfold Skeleton.set_target_angles
    rw [hjs]
    unfold set_target_angles_go joint_step
    rw [List.drop_zero, has, hm, List.take_succ_cons, hcur, hctl]
    simp [joint_triples, hcur, hctl, run_ctrls, control_zero_dt, bind, Except.bind]

/-! ## Claim C4: load_skel's root resolution -/

/-- A world with timestep 0.01 in which every name resolves. -/
def demoWorld : World := ⟨1/100, fun _ => some default⟩

/-- A one-DOF joint as the parser would hand it over (no controllers yet). -/
def demoJoint : Joint :=
  ⟨"hip", 1, [0], [], [], [], default, default, []⟩

/-- C4, against the source as written: the line
self.roots = [world.get_body(r) for r in p.roots] reads the unbound module
name world instead of self.world, so a parse that reports any root raises
NameError and the PID controllers are never initialized; only when the
parser reports no roots does load_skel reach set_pid_params, which then
does install per-DOF controllers with kp = (1 - 1e4) / world.dt and
ki = kd = 0. -/
theorem claim4_load_skel_root_lookup :
    load_skel demoWorld ⟨[("pelvis" : String)], [], [demoJoint]⟩ =
      .error .nameError ∧
    load_skel demoWorld ⟨[], [("pelvis" : String)], [demoJoint]⟩ =
      .ok ⟨[], [("pelvis" : String)],
           [{ demoJoint with
                target_angles := [none],
                controllers := [(⟨(1 - 10000) / (1/100), 0, 0, 1/10⟩, pidInit)] }]⟩ := by
  constructor
  · simp [load_skel, resolve_roots_via_global_world, bind, Except.bind]
  · simp [load_skel, resolve_roots_via_global_world, Skeleton.set_pid_params,
          demoWorld, demoJoint, bind, Except.bind]

/-! ## Claim C5: the unloaded state -/

/-- C5 as frozen is false at its rms part: on a skeleton that was never
loaded the deltas list is empty and np.mean([]) is NaN (none), not zero. -/
theorem claim5_unloaded_rms_counterexample :
    Skeleton.init.joint_rms_sq = none ∧ Skeleton.init.joint_rms_sq ≠ some 0 := by
  exact ⟨rfl, by simp [Skeleton.init, Skeleton.joint_rms_sq]⟩

/-- C5 amended: every query of an unloaded skeleton is empty or zero,
except joint_rms(), which is NaN (the mean of an empty sequence), modelled
as none. -/
theorem claim5_unloaded_queries :
    Skeleton.init.joint_angles = [] ∧
    Skeleton.init.joint_velocities = [] ∧
    Skeleton.init.joint_torques = [] ∧
    Skeleton.init.num_dofs = 0 ∧
    (∀ w : World,
        Skeleton.init.body_positions w = [] ∧
        Skeleton.init.body_rotations w = [] ∧
        Skeleton.init.body_linear_velocities w = [] ∧
        Skeleton.init.body_angular_velocities w = []) ∧
    (∀ name : String, Skeleton.init.indices_for_joint name = []) ∧
    (∀ (name : String) (step : ℕ), Skeleton.init.indices_for_body name step = []) ∧
    Skeleton.init.joint_rms_sq = none :=
  ⟨rfl, rfl, rfl, rfl, fun _ => ⟨rfl, rfl, rfl, rfl⟩,
   fun _ => rfl, fun _ _ => rfl, rfl⟩

/-! ## Claim C6: joint_rms -/

/-- A joint whose anchors are offset by (1,0,0). -/
def rmsJointOff : Joint :=
  ⟨"a", 1, [], [], [], [], ⟨1, 0, 0⟩, ⟨0, 0, 0⟩, []⟩

/-- A joint whose anchors coincide. -/
def rmsJointZero : Joint :=
  ⟨"b", 1, [], [], [], [], ⟨5, 5, 5⟩, ⟨5, 5, 5⟩, []⟩

/-- The two-joint skeleton of the claim's concrete example. -/
def rmsSkel : Skeleton := ⟨[], [], [rmsJointOff, rmsJointZero]⟩

/-- C6: on a skeleton with at least one joint, joint_rms is the square root
of the mean over all joints of the squared anchor-to-anchor distance; it is
exactly 0 when every joint's anchors coincide, and on the two-joint example
with offsets of norm 1 and 0 the mean is 1/2, so joint_rms is sqrt(0.5). -/
theorem claim6_joint_rms :
    (∀ s : Skeleton, s.joints ≠ [] →
        s.joint_rms_sq = some
          ((s.joints.map (fun j => (Vec3.sub j.anchor j.anchor2).sqnorm)).sum /
            (s.joints.length : ℚ))) ∧
    (∀ s : Skeleton, s.joints ≠ [] → (∀ j ∈ s.joints, j.anchor = j.anchor2) →
        ∃ q : ℚ, s.joint_rms_sq = some q ∧ Real.sqrt (q : ℝ) = 0) ∧
    rmsSkel.joint_rms_sq = some (1/2) ∧
    Real.sqrt ((1/2 : ℚ) : ℝ) = Real.sqrt (0.5 : ℝ) := by
  have hmean : ∀ s : Skeleton, s.joints ≠ [] →
      s.joint_rms_sq = some
        ((s.joints.map (fun j => (Vec3.sub j.anchor j.anchor2).sqnorm)).sum /
          (s.joints.length : ℚ)) := by
    intro s hs
    unfold Skeleton.joint_rms_sq
    cases hj : s.joints with
    | nil => exact absurd hj hs
    | cons j js => rfl
  refine ⟨hmean, ?_, ?_, ?_⟩
  · intro s hs hco
    refine ⟨0, ?_, by simp⟩
    rw [hmean s hs]
    have hz : (s.joints.map (fun j => (Vec3.sub j.anchor j.anchor2).sqnorm)).sum = 0 := by
      apply List.sum_eq_zero
      intro x hx
      obtain ⟨j, hj, hjx⟩ := List.mem_map.mp hx
      rw [← hjx, hco j hj]
      simp [Vec3.sub, Vec3.sqnorm]
    rw [hz]
    simp
  · show Skeleton.joint_rms_sq ⟨[], [], [rmsJointOff, rmsJointZero]⟩ = _
    unfold Skeleton.joint_rms_sq
    norm_num [rmsJointOff, rmsJointZero, Vec3.sub, Vec3.sqnorm]
  · norm_num

/-! ## Claim C3: indices_for_joint -/

theorem sum_take_mono (xs : List ℕ) :
    ∀ a b, a ≤ b → (xs.take a).sum ≤ (xs.take b).sum := by
  induction xs with
  | nil => intro a b _; simp
  | cons x xs ih =>
    intro a b hab
    cases a with
    | zero => simp
    | succ a' =>
      cases b with
      | zero => omega
      | succ b' =>
        simp only [List.take_succ_cons, List.sum_cons]
        exact Nat.add_le_add_left (ih a' b' (Nat.succ_le_succ_iff.mp hab)) x

theorem dof_offset_succ (l : List Joint) (k : ℕ) (hk : k < l.length) :
    dof_offset l (k + 1) = dof_offset l k + (l.getD k default).adof := by
  unfold dof_offset
  have h1 : l.take (k + 1) = l.take k ++ [l.getD k default] := by
    rw [List.take_succ, List.getElem?_eq_getElem hk, List.getD_eq_getElem l default hk]
    rfl
  rw [h1]
  simp

theorem dof_offset_le (l : List Joint) (a b : ℕ) (hab : a ≤ b) :
    dof_offset l a ≤ dof_offset l b := by
  unfold dof_offset
  rw [List.map_take, List.map_take]
  exact sum_take_mono _ a b hab

theorem dof_offset_add_le (l : List Joint) (k : ℕ) (hk : k < l.length) :
    dof_offset l k + (l.getD k default).adof ≤ (l.map (fun j => j.adof)).sum := by
  rw [← dof_offset_succ l k hk]
  have := dof_offset_le l (k + 1) l.length hk
  unfold dof_offset at this
  rwa [List.take_length] at this

/-- Where the scan of indices_for_joint ends up: either the name is absent
and the result is empty, or there is a first joint with the name and the
result is the contiguous range at its cumulative offset. -/
theorem indices_for_joint_go_spec (name : String) :
    ∀ (l : List Joint) (off : ℕ),
      (name ∉ l.map Joint.name ∧ indices_for_joint_go name off l = []) ∨
      (∃ k, k < l.length ∧ (l.getD k default).name = name ∧
        (∀ m, m < k → (l.getD m default).name ≠ name) ∧
        indices_for_joint_go name off l =
          List.range' (off + dof_offset l k) ((l.getD k default).adof)) := by
  intro l
  induction l with
  | nil => intro off; left; simp [indices_for_joint_go]
  | cons j js ih =>
    intro off
    by_cases hj : j.name = name
    · right
      refine ⟨0, by simp, by simpa using hj, by omega, ?_⟩
      simp [indices_for_joint_go, hj, dof_offset]
    · rcases ih (off + j.adof) with ⟨hnm, he⟩ | ⟨k, hk, hkn, hfirst, he⟩
      · left
        refine ⟨?_, by simp [indices_for_joint_go, hj, he]⟩
        simp only [List.map_cons, List.mem_cons]
        rintro (h | h)
        · exact hj h.symm
        · exact hnm h
      · right
        refine ⟨k + 1, by simpa using hk, by simpa using hkn, ?_, ?_⟩
        · intro m hm
          cases m with
          | zero => simpa using hj
          | succ m' => simpa using hfirst m' (by omega)
        · rw [indices_for_joint_go, if_neg hj, he]
          have hoff : dof_offset (j :: js) (k + 1) = j.adof + dof_offset js k := by
            simp [dof_offset]
          rw [List.getD_cons_succ, hoff]
          congr 1
          omega

theorem indices_for_joint_first (s : Skeleton) (name : String) (k : ℕ)
    (hk : k < s.joints.length)
    (hkn : (s.joints.getD k default).name = name)
    (hfirst : ∀ m, m < k → (s.joints.getD m default).name ≠ name) :
    s.indices_for_joint name =
      List.range' (dof_offset s.joints k) ((s.joints.getD k default).adof) := by
  rcases indices_for_joint_go_spec name s.joints 0 with ⟨hnm, _⟩ | ⟨k', hk', hkn', hfirst', he'⟩
  · exact absurd (List.mem_map.mpr
      ⟨s.joints.getD k default,
        by rw [List.getD_eq_getElem s.joints default hk]; exact List.getElem_mem hk, hkn⟩) hnm
  · have hkk : k' = k := by
      rcases Nat.lt_trichotomy k' k with h | h | h
      · exact absurd hkn' (hfirst k' h)
      · exact h
      · exact absurd hkn (hfirst' k h)
    subst hkk
    simpa using he'

/-- The length of the scan's result does not depend on the starting offset. -/
theorem indices_for_joint_go_length (name : String) :
    ∀ (l : List Joint) (off off' : ℕ),
      (indices_for_joint_go name off l).length =
        (indices_for_joint_go name off' l).length := by
  intro l
  induction l with
  | nil => intro off off'; rfl
  | cons j js ih =>
    intro off off'
    by_cases hj : j.name = name
    · simp [indices_for_joint_go, hj]
    · simp only [indices_for_joint_go, if_neg hj]
      exact ih (off + j.adof) (off' + j.adof)

theorem indices_for_joint_go_absent (name : String) :
    ∀ (l : List Joint) (off : ℕ), name ∉ l.map Joint.name →
      indices_for_joint_go name off l = [] := by
  intro l
  induction l with
  | nil => intro off _; rfl
  | cons j js ih =>
    intro off h
    simp only [List.map_cons, List.mem_cons, not_or] at h
    rw [indices_for_joint_go, if_neg (fun hc => h.1 hc.symm)]
    exact ih _ h.2

theorem indices_sum_eq_num_dofs :
    ∀ l : List Joint, (l.map Joint.name).Nodup →
      (l.map (fun j => (indices_for_joint_go j.name 0 l).length)).sum =
        (l.map (fun j => j.adof)).sum := by
  intro l
  induction l with
  | nil => intro _; rfl
  | cons j js ih =>
    intro hnd
    rw [List.map_cons, List.nodup_cons] at hnd
    obtain ⟨hj, hjs⟩ := hnd
    simp only [List.map_cons, List.sum_cons]
    have hhead : (indices_for_joint_go j.name 0 (j :: js)).length = j.adof := by
      simp [indices_for_joint_go]
    have htail : ∀ jt ∈ js,
        (indices_for_joint_go jt.name 0 (j :: js)).length =
          (indices_for_joint_go jt.name 0 js).length := by
      intro jt hjt
      have hne : j.name ≠ jt.name := fun hc => hj (hc ▸ List.mem_map.mpr ⟨jt, hjt, rfl⟩)
      rw [indices_for_joint_go, if_neg (fun hc => hne hc), Nat.zero_add]
      exact indices_for_joint_go_length jt.name js j.adof 0
    rw [hhead, List.map_congr_left htail, ih hjs]

/-- C3: the range of a present joint name is contiguous of length ADOF and
starts at the sum of the preceding joints' ADOFs; ranges of distinct names
are disjoint; with the skeleton's unique-name invariant the range lengths
sum to num_dofs; an absent name yields the empty range. -/
theorem claim3_indices_for_joint :
    (∀ (s : Skeleton) (name : String) (k : ℕ), k < s.joints.length →
        (s.joints.getD k default).name = name →
        (∀ m, m < k → (s.joints.getD m default).name ≠ name) →
        s.indices_for_joint name =
          List.range' (dof_offset s.joints k) ((s.joints.getD k default).adof)) ∧
    (∀ (s : Skeleton) (n1 n2 : String), n1 ≠ n2 →
        ∀ i, i ∈ s.indices_for_joint n1 → i ∉ s.indices_for_joint n2) ∧
    (∀ s : Skeleton, (s.joints.map Joint.name).Nodup →
        (s.joints.map (fun j => (s.indices_for_joint j.name).length)).sum =
          s.num_dofs) ∧
    (∀ (s : Skeleton) (name : String), name ∉ s.joints.map Joint.name →
        s.indices_for_joint name = []) := by
  have key : ∀ (l : List Joint) (ka kb i : ℕ), ka < kb → kb < l.length →
      i ∈ List.range' (dof_offset l ka) ((l.getD ka default).adof) →
      i ∈ List.range' (dof_offset l kb) ((l.getD kb default).adof) → False := by
    intro l ka kb i hab hb ha' hb'
    rw [List.mem_range'_1] at ha' hb'
    have h1 : dof_offset l (ka + 1) = dof_offset l ka + (l.getD ka default).adof :=
      dof_offset_succ l ka (by omega)
    have h2 : dof_offset l (ka + 1) ≤ dof_offset l kb := dof_offset_le l (ka + 1) kb hab
    omega
  refine ⟨fun s => indices_for_joint_first s, ?_, ?_, ?_⟩
  · intro s n1 n2 hne i h1 h2
    rcases indices_for_joint_go_spec n1 s.joints 0 with ⟨_, he1⟩ | ⟨k1, hk1, hn1, _, he1⟩
    · rw [Skeleton.indices_for_joint, he1] at h1; exact absurd h1 (List.not_mem_nil i)
    rcases indices_for_joint_go_spec n2 s.joints 0 with ⟨_, he2⟩ | ⟨k2, hk2, hn2, _, he2⟩
    · rw [Skeleton.indices_for_joint, he2] at h2; exact absurd h2 (List.not_mem_nil i)
    rw [Skeleton.indices_for_joint, he1, Nat.zero_add] at h1
    rw [Skeleton.indices_for_joint, he2, Nat.zero_add] at h2
    rcases Nat.lt_trichotomy k1 k2 with h | h | h
    · exact key s.joints k1 k2 i h hk2 h1 h2
    · exact hne (by rw [← hn1, ← hn2, h])
    · exact key s.joints k2 k1 i h hk1 h2 h1
  · intro s hnd
    exact indices_sum_eq_num_dofs s.joints hnd
  · intro s name h
    exact indices_for_joint_go_absent name s.joints 0 h

/-! ## Claim C9: add_torques -/

theorem add_torques_go_length (torques : List ℚ) :
    ∀ (l : List Joint) (off : ℕ), (add_torques_go torques off l).length = l.length := by
  intro l
  induction l with
  | nil => intro off; rfl
  | cons j js ih => intro off; simp [add_torques_go, ih]

theorem add_torques_go_getD (torques : List ℚ) :
    ∀ (l : List Joint) (off k : ℕ), k < l.length →
      (add_torques_go torques off l).getD k [] =
        (torques.drop (off + dof_offset l k)).take ((l.getD k default).adof) ++
          List.replicate (3 - (l.getD k default).adof) 0 := by
  intro l
  induction l with
  | nil => intro off k hk; simp at hk
  | cons j js ih =>
    intro off k hk
    cases k with
    | zero => simp [add_torques_go, dof_offset]
    | succ k' =>
      have hk' : k' < js.length := by simpa using hk
      have hoff : dof_offset (j :: js) (k' + 1) = j.adof + dof_offset js k' := by
        simp [dof_offset]
      rw [add_torques_go, List.getD_cons_succ, ih (off + j.adof) k' hk',
          List.getD_cons_succ, hoff, ← Nat.add_assoc]

/-- A joint with one angular DOF. -/
def torqueJoint1 : Joint := ⟨"j1", 1, [], [], [], [], default, default, []⟩

/-- A joint with three angular DOFs. -/
def torqueJoint3 : Joint := ⟨"j3", 3, [], [], [], [], default, default, []⟩

/-- C9: add_torques hands each joint, in load order, the ADOF-length slice
of the input at the joint's cumulative offset padded with 3 - ADOF zeros,
so each joint receives exactly 3 components when the input covers num_dofs
entries; on the 1-DOF/3-DOF example the 1-DOF joint receives its entry
followed by two zeros. -/
theorem claim9_add_torques :
    (∀ (s : Skeleton) (torques : List ℚ),
        s.num_dofs ≤ torques.length →
        (∀ j ∈ s.joints, j.adof ≤ 3) →
        (s.add_torques torques).length = s.joints.length ∧
        (∀ k, k < s.joints.length →
          (s.add_torques torques).getD k [] =
            (torques.drop (dof_offset s.joints k)).take
                ((s.joints.getD k default).adof) ++
              List.replicate (3 - (s.joints.getD k default).adof) 0 ∧
          ((s.add_torques torques).getD k []).length = 3)) ∧
    Skeleton.add_torques ⟨[], [], [torqueJoint1, torqueJoint3]⟩ [10, 20, 30, 40] =
      [[10, 0, 0], [20, 30, 40]] := by
  constructor
  · intro s torques hlen hadof
    refine ⟨add_torques_go_length torques s.joints 0, ?_⟩
    intro k hk
    have hgetD := add_torques_go_getD torques s.joints 0 k hk
    rw [Nat.zero_add] at hgetD
    have hgetD' : (s.add_torques torques).getD k [] =
        (torques.drop (dof_offset s.joints k)).take
            ((s.joints.getD k default).adof) ++
          List.replicate (3 - (s.joints.getD k default).adof) 0 := hgetD
    refine ⟨hgetD', ?_⟩
    rw [hgetD', List.length_append, List.length_take, List.length_drop,
        List.length_replicate]
    have hmem : s.joints.getD k default ∈ s.joints := by
      rw [List.getD_eq_getElem s.joints default hk]
      exact List.getElem_mem hk
    have h3 := hadof _ hmem
    have hle := dof_offset_add_le s.joints k hk
    have : dof_offset s.joints k + (s.joints.getD k default).adof ≤ torques.length :=
      le_trans hle hlen
    omega
  · rfl

/-! ## Claim C2: set_target_angles -/

/-- What run_ctrls computes when no call divides by zero. -/
def run_ctrls_pure (dt : ℚ) :
    List (ℚ × ℚ × PidParams × PidState) → List ℚ × List (PidParams × PidState)
  | [] => ([], [])
  | (cur, tgt, c, st) :: rest =>
      let rs := run_ctrls_pure dt rest
      (pidValue c st (tgt - cur) dt :: rs.1,
       (c, pidNext c st (tgt - cur) dt) :: rs.2)

theorem run_ctrls_ok (dt : ℚ) (h : dt ≠ 0) :
    ∀ l, run_ctrls dt l = .ok (run_ctrls_pure dt l) := by
  intro l
  induction l with
  | nil => rfl
  | cons t rest ih =>
    obtain ⟨cur, tgt, c, st⟩ := t
    rw [run_ctrls, control_ok c st (tgt - cur) dt h]
    simp [ih, run_ctrls_pure, bind, Except.bind]

theorem run_ctrls_pure_fst (dt : ℚ) :
    ∀ l, (run_ctrls_pure dt l).1 =
      l.map (fun t => pidValue t.2.2.1 t.2.2.2 (t.2.1 - t.1) dt) := by
  intro l
  induction l with
  | nil => rfl
  | cons t rest ih =>
    obtain ⟨cur, tgt, c, st⟩ := t
    simp [run_ctrls_pure, ih]

/-- What joint_step computes when dt ≠ 0. -/
def joint_step_pure (dt : ℚ) (j : Joint) (slice : List ℚ) : Joint :=
  { j with velocities := (run_ctrls_pure dt (joint_triples j slice)).1,
           controllers := (run_ctrls_pure dt (joint_triples j slice)).2 ++
             j.controllers.drop (joint_triples j slice).length }

theorem joint_step_ok (dt : ℚ) (h : dt ≠ 0) (j : Joint) (slice : List ℚ) :
    joint_step dt j slice = .ok (joint_step_pure dt j slice) := by
  rw [joint_step, run_ctrls_ok dt h]
  simp [joint_step_pure, bind, Except.bind]

/-- What the set_target_angles loop computes when dt ≠ 0. -/
def set_target_angles_pure (dt : ℚ) (angles : List ℚ) : ℕ → List Joint → List Joint
  | _, [] => []
  | off, j :: js =>
      joint_step_pure dt j ((angles.drop off).take j.adof) ::
        set_target_angles_pure dt angles (off + j.adof) js

theorem set_target_angles_go_ok (dt : ℚ) (h : dt ≠ 0) (angles : List ℚ) :
    ∀ (l : List Joint) (off : ℕ),
      set_target_angles_go dt angles off l =
        .ok (set_target_angles_pure dt angles off l) := by
  intro l
  induction l with
  | nil => intro off; rfl
  | cons j js ih =>
    intro off
    rw [set_target_angles_go, joint_step_ok dt h]
    simp [ih, set_target_angles_pure, bind, Except.bind]

theorem set_target_angles_ok (s : Skeleton) (dt : ℚ) (h : dt ≠ 0) (angles : List ℚ) :
    s.set_target_angles dt angles =
      .ok { s with joints := set_target_angles_pure dt angles 0 s.joints } := by
  rw [Skeleton.set_target_angles, set_target_angles_go_ok dt h]
  simp [bind, Except.bind]

theorem set_target_angles_pure_length (dt : ℚ) (angles : List ℚ) :
    ∀ (l : List Joint) (off : ℕ),
      (set_target_angles_pure dt angles off l).length = l.length := by
  intro l
  induction l with
  | nil => intro off; rfl
  | cons j js ih => intro off; simp [set_target_angles_pure, ih]

theorem set_target_angles_pure_getD (dt : ℚ) (angles : List ℚ) :
    ∀ (l : List Joint) (off k : ℕ), k < l.length →
      (set_target_angles_pure dt angles off l).getD k default =
        joint_step_pure dt (l.getD k default)
          ((angles.drop (off + dof_offset l k)).take ((l.getD k default).adof)) := by
  intro l
  induction l with
  | nil => intro off k hk; simp at hk
  | cons j js ih =>
    intro off k hk
    cases k with
    | zero => simp [set_target_angles_pure, dof_offset]
    | succ k' =>
      have hk' : k' < js.length := by simpa using hk
      have hoff : dof_offset (j :: js) (k' + 1) = j.adof + dof_offset js k' := by
        simp [dof_offset]
      rw [set_target_angles_pure, List.getD_cons_succ, ih (off + j.adof) k' hk',
          List.getD_cons_succ, hoff, ← Nat.add_assoc]

/-- The velocity vector the claim asserts for the k-th joint: one PID
output per DOF, with error = target - current read at the joint's
cumulative flat offset and the joint's own per-DOF controller. -/
def claimed_velocities (dt : ℚ) (joints : List Joint) (angles : List ℚ) (k : ℕ) :
    List ℚ :=
  (List.range ((joints.getD k default).adof)).map (fun m =>
    pidValue ((joints.getD k default).controllers.getD m default).1
             ((joints.getD k default).controllers.getD m default).2
             (angles.getD (dof_offset joints k + m) 0 -
              (joints.getD k default).angles.getD m 0) dt)

theorem joint_step_pure_velocities (dt : ℚ) (j : Joint) (angles : List ℚ)
    (off : ℕ) (hja : j.angles.length = j.adof) (hjc : j.controllers.length = j.adof)
    (hoff : off + j.adof ≤ angles.length) :
    (joint_step_pure dt j ((angles.drop off).take j.adof)).velocities =
      (List.range j.adof).map (fun m =>
        pidValue (j.controllers.getD m default).1 (j.controllers.getD m default).2
          (angles.getD (off + m) 0 - j.angles.getD m 0) dt) := by
  have hslice : ((angles.drop off).take j.adof).length = j.adof := by
    rw [List.length_take, List.length_drop]
    omega
  have htrip : (joint_triples j ((angles.drop off).take j.adof)).length = j.adof := by
    rw [joint_triples, List.length_zip, List.length_zip, hja, hjc, hslice]
    omega
  rw [joint_step_pure]
  simp only [run_ctrls_pure_fst]
  apply List.ext_getElem
  · simp [htrip]
  · intro m h1 h2
    have hm : m < j.adof := by simpa [htrip] using h2
    have hma : m < j.angles.length := by omega
    have hmc : m < j.controllers.length := by omega
    have hms : m < ((angles.drop off).take j.adof).length := by omega
    have hmz : m < (((angles.drop off).take j.adof).zip j.controllers).length := by
      rw [List.length_zip]
      omega
    have hmo : off + m < angles.length := by omega
    simp only [List.getElem_map, List.getElem_range, joint_triples,
               List.getElem_zip, List.getElem_take, List.getElem_drop]
    rw [List.getD_eq_getElem j.controllers default hmc,
        List.getD_eq_getElem angles 0 hmo,
        List.getD_eq_getElem j.angles 0 hma]

/-- C2: with a timestep dt ≠ 0, the joint invariant (as many current angles
and controllers as DOFs) and an input covering num_dofs entries,
set_target_angles succeeds, assigns to each joint (in load order, at its
cumulative ADOF offset) the per-DOF PID outputs for
error = target - current, and joint_velocities read immediately afterwards
is exactly the concatenation of those vectors. -/
theorem claim2_set_target_angles (s : Skeleton) (dt : ℚ) (angles : List ℚ)
    (hdt : dt ≠ 0)
    (hvalid : ∀ j ∈ s.joints,
        j.angles.length = j.adof ∧ j.controllers.length = j.adof)
    (hlen : s.num_dofs ≤ angles.length) :
    ∃ s', s.set_target_angles dt angles = .ok s' ∧
      s'.joints.length = s.joints.length ∧
      (∀ k, k < s.joints.length →
        (s'.joints.getD k default).velocities =
          claimed_velocities dt s.joints angles k) ∧
      s'.joint_velocities =
        flat_array ((List.range s.joints.length).map
          (claimed_velocities dt s.joints angles)) := by
  refine ⟨{ s with joints := set_target_angles_pure dt angles 0 s.joints },
    set_target_angles_ok s dt hdt angles, ?_, ?_, ?_⟩
  · exact set_target_angles_pure_length dt angles s.joints 0
  · intro k hk
    have hmem : s.joints.getD k default ∈ s.joints := by
      rw [List.getD_eq_getElem s.joints default hk]
      exact List.getElem_mem hk
    obtain ⟨hja, hjc⟩ := hvalid _ hmem
    have hoff : dof_offset s.joints k + (s.joints.getD k default).adof ≤
        angles.length := le_trans (dof_offset_add_le s.joints k hk) hlen
    have h1 := set_target_angles_pure_getD dt angles s.joints 0 k hk
    rw [Nat.zero_add] at h1
    simp only [h1]
    exact joint_step_pure_velocities dt _ angles _ hja hjc hoff
  · show flat_array ((set_target_angles_pure dt angles 0 s.joints).map
        (fun j => j.velocities)) = _
    congr 1
    apply List.ext_getElem
    · simp [set_target_angles_pure_length]
    · intro k h1 h2
      have hk : k < s.joints.length := by
        simpa [set_target_angles_pure_length] using h1
      have hlenp : k < (set_target_angles_pure dt angles 0 s.joints).length := by
        rw [set_target_angles_pure_length]
        exact hk
      rw [List.getElem_map, List.getElem_map, List.getElem_range]
      have hmem : s.joints.getD k default ∈ s.joints := by
        rw [List.getD_eq_getElem s.joints default hk]
        exact List.getElem_mem hk
      obtain ⟨hja, hjc⟩ := hvalid _ hmem
      have hoff : dof_offset s.joints k + (s.joints.getD k default).adof ≤
          angles.length := le_trans (dof_offset_add_le s.joints k hk) hlen
      have h1' := set_target_angles_pure_getD dt angles s.joints 0 k hk
      rw [Nat.zero_add] at h1'
      rw [← List.getD_eq_getElem (set_target_angles_pure dt angles 0 s.joints)
            default hlenp, h1']
      exact joint_step_pure_velocities dt _ angles _ hja hjc hoff

/-- A one-DOF joint with current angle 0 and a pure-P controller, kp = 2. -/
def witJoint : Joint :=
  ⟨"hip", 1, [0], [], [(⟨2, 0, 0, 0⟩, pidInit)], [none], default, default, []⟩

/-- A skeleton holding just witJoint. -/
def witSkel : Skeleton := ⟨[], [], [witJoint]⟩

theorem claim2_set_target_angles_witness :
    ∃ s', witSkel.set_target_angles 1 [3] = .ok s' ∧
      s'.joints.length = witSkel.joints.length ∧
      (∀ k, k < witSkel.joints.length →
        (s'.joints.getD k default).velocities =
          claimed_velocities 1 witSkel.joints [3] k) ∧
      s'.joint_velocities =
        flat_array ((List.range witSkel.joints.length).map
          (claimed_velocities 1 witSkel.joints [3])) :=
  claim2_set_target_angles witSkel 1 [3] (by norm_num)
    (by
      intro j hj
      have : j = witJoint := by simpa [witSkel] using hj
      rw [this]
      exact ⟨rfl, rfl⟩)
    (by simp [witSkel, witJoint, Skeleton.num_dofs])

/-! ## Claim C10: no input-length validation -/

theorem slice_append (xs ys : List ℚ) (off a : ℕ) (h : off + a ≤ xs.length) :
    ((xs ++ ys).drop off).take a = (xs.drop off).take a := by
  rw [List.drop_append_of_le_length (by omega),
      List.take_append_of_le_length (by rw [List.length_drop]; omega)]

theorem set_target_angles_go_append (dt : ℚ) (xs ys : List ℚ) :
    ∀ (l : List Joint) (off : ℕ),
      off + (l.map (fun j => j.adof)).sum ≤ xs.length →
      set_target_angles_go dt (xs ++ ys) off l = set_target_angles_go dt xs off l := by
  intro l
  induction l with
  | nil => intro off _; rfl
  | cons j js ih =>
    intro off h
    simp only [List.map_cons, List.sum_cons] at h
    have hsl : ((xs ++ ys).drop off).take j.adof = (xs.drop off).take j.adof :=
      slice_append xs ys off j.adof (by omega)
    have hih := ih (off + j.adof) (by omega)
    simp only [set_target_angles_go, hsl, hih]

theorem add_torques_go_append (xs ys : List ℚ) :
    ∀ (l : List Joint) (off : ℕ),
      off + (l.map (fun j => j.adof)).sum ≤ xs.length →
      add_torques_go (xs ++ ys) off l = add_torques_go xs off l := by
  intro l
  induction l with
  | nil => intro off _; rfl
  | cons j js ih =>
    intro off h
    simp only [List.map_cons, List.sum_cons] at h
    have hsl : ((xs ++ ys).drop off).take j.adof = (xs.drop off).take j.adof :=
      slice_append xs ys off j.adof (by omega)
    have hih := ih (off + j.adof) (by omega)
    simp only [add_torques_go, hsl, hih]

/-- C10: neither mutator checks its input against num_dofs.  With fewer
than num_dofs entries nothing fails: set_target_angles assigns the affected
joints velocity lists of length min(ADOF, entries left), shorter than ADOF
once entries run out, and add_torques passes the affected joints lists of
length min(ADOF, entries left) + (3 - ADOF), shorter than 3; entries beyond
num_dofs are ignored by both. -/
theorem claim10_no_length_validation :
    (∀ (s : Skeleton) (dt : ℚ) (angles : List ℚ), dt ≠ 0 →
        (∀ j ∈ s.joints,
            j.angles.length = j.adof ∧ j.controllers.length = j.adof) →
        ∃ s', s.set_target_angles dt angles = .ok s' ∧
          ∀ k, k < s.joints.length →
            (s'.joints.getD k default).velocities.length =
              min ((s.joints.getD k default).adof)
                  (angles.length - dof_offset s.joints k)) ∧
    (∀ (s : Skeleton) (torques : List ℚ) (k : ℕ), k < s.joints.length →
        ((s.add_torques torques).getD k []).length =
          min ((s.joints.getD k default).adof)
              (torques.length - dof_offset s.joints k) +
            (3 - (s.joints.getD k default).adof)) ∧
    (∀ (s : Skeleton) (dt : ℚ) (xs ys : List ℚ), s.num_dofs ≤ xs.length →
        s.set_target_angles dt (xs ++ ys) = s.set_target_angles dt xs ∧
        s.add_torques (xs ++ ys) = s.add_torques xs) := by
  refine ⟨?_, ?_, ?_⟩
  · intro s dt angles hdt hvalid
    refine ⟨{ s with joints := set_target_angles_pure dt angles 0 s.joints },
      set_target_angles_ok s dt hdt angles, ?_⟩
    intro k hk
    have hmem : s.joints.getD k default ∈ s.joints := by
      rw [List.getD_eq_getElem s.joints default hk]
      exact List.getElem_mem hk
    obtain ⟨hja, hjc⟩ := hvalid _ hmem
    have h1 := set_target_angles_pure_getD dt angles s.joints 0 k hk
    rw [Nat.zero_add] at h1
    simp only [h1, joint_step_pure, run_ctrls_pure_fst, List.length_map,
      joint_triples, List.length_zip, List.length_take, List.length_drop,
      hja, hjc]
    omega
  · intro s torques k hk
    have hgetD := add_torques_go_getD torques s.joints 0 k hk
    rw [Nat.zero_add] at hgetD
    have hgetD' : (s.add_torques torques).getD k [] =
        (torques.drop (dof_offset s.joints k)).take
            ((s.joints.getD k default).adof) ++
          List.replicate (3 - (s.joints.getD k default).adof) 0 := hgetD
    rw [hgetD', List.length_append, List.length_take, List.length_drop,
        List.length_replicate]
  · intro s dt xs ys hlen
    constructor
    · rw [Skeleton.set_target_angles, Skeleton.set_target_angles,
          set_target_angles_go_append dt xs ys s.joints 0 (by simpa using hlen)]
    · rw [Skeleton.add_torques, Skeleton.add_torques,
          add_torques_go_append xs ys s.joints 0 (by simpa using hlen)]

/-! ## Claim C7: get_body_states / set_body_states -/

theorem get_body_set_body (w : World) (n : String) (st : BodyState) (m : String) :
    (w.set_body n st).get_body m = if m = n then some st else w.get_body m := rfl

theorem set_body_states_restore (w : World) :
    ∀ (bs : List String) (w' : World),
      (∀ n ∈ bs, (w'.get_body n).isSome) →
      ∃ w'', set_body_states w' (bs.map (fun n => (n, w.body_state n))) = .ok w'' ∧
        ∀ n : String, w''.get_body n =
          if n ∈ bs then some (w.body_state n) else w'.get_body n := by
  intro bs
  induction bs with
  | nil => exact fun w' _ => ⟨w', rfl, fun n => by simp⟩
  | cons b bs ih =>
    intro w' hres
    have hb : (w'.get_body b).isSome := hres b (List.mem_cons_self b bs)
    obtain ⟨stb, hstb⟩ := Option.isSome_iff_exists.mp hb
    have hres' : ∀ n ∈ bs, ((w'.set_body b (w.body_state b)).get_body n).isSome := by
      intro n hn
      rw [get_body_set_body]
      by_cases hnb : n = b
      · rw [if_pos hnb]; rfl
      · rw [if_neg hnb]; exact hres n (List.mem_cons_of_mem b hn)
    obtain ⟨w'', hw'', hchar⟩ := ih (w'.set_body b (w.body_state b)) hres'
    refine ⟨w'', ?_, ?_⟩
    · simp only [List.map_cons, set_body_states, hstb]
      exact hw''
    · intro n
      rw [hchar n, get_body_set_body]
      by_cases hn : n ∈ bs
      · rw [if_pos hn, if_pos (List.mem_cons_of_mem b hn)]
      · by_cases hnb : n = b
        · rw [if_neg hn, if_pos hnb, if_pos (by rw [hnb]; exact List.mem_cons_self b bs), hnb]
        · rw [if_neg hn, if_neg hnb,
              if_neg (by rw [List.mem_cons]; exact fun h => h.elim hnb hn)]

theorem set_body_states_error :
    ∀ (states : List (String × BodyState)) (w : World),
      (∃ p ∈ states, w.get_body p.1 = none) →
      set_body_states w states = .error .keyError := by
  intro states
  induction states with
  | nil =>
    intro w h
    obtain ⟨p, hp, _⟩ := h
    exact absurd hp (List.not_mem_nil p)
  | cons q rest ih =>
    intro w h
    obtain ⟨n, st⟩ := q
    cases hw : w.get_body n with
    | none => simp only [set_body_states, hw]
    | some stb =>
      simp only [set_body_states, hw]
      apply ih
      obtain ⟨p, hp, hpn⟩ := h
      rcases List.mem_cons.mp hp with rfl | hp'
      · rw [hpn] at hw
        cases hw
      · refine ⟨p, hp', ?_⟩
        have hne : p.1 ≠ n := fun hc => by rw [hc, hw] at hpn; cases hpn
        rw [get_body_set_body, if_neg hne, hpn]

/-- C7: saving every body's state with get_body_states, mutating body
states arbitrarily (any world w' that still resolves the skeleton's body
names), then set_body_states with the snapshot succeeds and restores all
four flattened body accessors exactly; and set_body_states on a state list
containing a name the world cannot resolve surfaces an error. -/
theorem claim7_body_state_roundtrip :
    (∀ (s : Skeleton) (w w' : World),
        (∀ n ∈ s.bodies, (w'.get_body n).isSome) →
        ∃ w'', set_body_states w' (s.get_body_states w) = .ok w'' ∧
          s.body_positions w'' = s.body_positions w ∧
          s.body_rotations w'' = s.body_rotations w ∧
          s.body_linear_velocities w'' = s.body_linear_velocities w ∧
          s.body_angular_velocities w'' = s.body_angular_velocities w) ∧
    (∀ (w : World) (states : List (String × BodyState)),
        (∃ p ∈ states, w.get_body p.1 = none) →
        set_body_states w states = .error .keyError) := by
  constructor
  · intro s w w' hres
    obtain ⟨w'', hw'', hchar⟩ := set_body_states_restore w s.bodies w' hres
    have hbody : ∀ n ∈ s.bodies, w''.body_state n = w.body_state n := by
      intro n hn
      rw [World.body_state, hchar n, if_pos hn]
      rfl
    refine ⟨w'', hw'', ?_, ?_, ?_, ?_⟩ <;>
      · first
          | rw [Skeleton.body_positions, Skeleton.body_positions]
          | rw [Skeleton.body_rotations, Skeleton.body_rotations]
          | rw [Skeleton.body_linear_velocities, Skeleton.body_linear_velocities]
          | rw [Skeleton.body_angular_velocities, Skeleton.body_angular_velocities]
        congr 1
        apply List.map_congr_left
        intro n hn
        rw [hbody n hn]
  · exact fun w states h => set_body_states_error states w h

end Pagoda
